import Mathlib

/-!
Verification of the log tailing and structured log-entry parsing engine of
the `systematic` repository (`systematic/log.py`, `systematic/tail.py`).

The Python classes are shallowly embedded: pure parsing code becomes Lean
functions, the mutable `LogFile` / `LogFileCollection` objects become explicit
state records, and every method becomes a function from state to
(state × result).  Python exceptions are modelled with `Except`; a raised
exception still returns the mutated state, matching Python semantics where
mutations performed before a `raise` persist.
-/

deriving instance DecidableEq for Except

namespace Systematic

/-! ### Python string primitives

Helpers modelling the Python `str` operations used by `log.py`.
Whitespace is the Python `str.split`/`str.strip` whitespace set
(space, tab, newline, carriage return, vertical tab, form feed).
-/

/-- Characters treated as whitespace by Python `str.split()` / `str.strip()`. -/
def isPySpace (c : Char) : Bool :=
  c = ' ' || c = '\t' || c = '\n' || c = '\r' || c = '\x0b' || c = '\x0c'

/-- Models Python `s.rstrip()`: drop trailing whitespace. -/
def pyRstrip (s : String) : String :=
  String.mk ((s.toList.reverse.dropWhile isPySpace).reverse)

/-- Models Python `s.lstrip()`: drop leading whitespace. -/
def pyLstrip (s : String) : String :=
  String.mk (s.toList.dropWhile isPySpace)

/-- Models Python `s.strip()`: drop whitespace on both sides. -/
def pyStrip (s : String) : String :=
  pyLstrip (pyRstrip s)

/-- Models Python `line.split(None, 3)` followed by unpacking into exactly
four variables (`mon, day, time, line = line.split(None, 3)` in
`LogEntry.__init__`, log.py line 361): three whitespace-delimited tokens and
the remainder of the line (with the whitespace before it consumed).  Returns
`none` when fewer than four elements result, which in Python raises
`ValueError`. -/
def pySplitWs3 (s : String) : Option (String × String × String × String) :=
  let cs0 := s.toList.dropWhile isPySpace
  let t1 := cs0.takeWhile (fun c => !isPySpace c)
  let r1 := (cs0.dropWhile (fun c => !isPySpace c)).dropWhile isPySpace
  let t2 := r1.takeWhile (fun c => !isPySpace c)
  let r2 := (r1.dropWhile (fun c => !isPySpace c)).dropWhile isPySpace
  let t3 := r2.takeWhile (fun c => !isPySpace c)
  let rest := (r2.dropWhile (fun c => !isPySpace c)).dropWhile isPySpace
  if t1.isEmpty || t2.isEmpty || t3.isEmpty || rest.isEmpty then
    none
  else
    some (String.mk t1, String.mk t2, String.mk t3, String.mk rest)

/-- Models Python `line.split(':', 1)`: split on the first colon.  Returns
`none` when the string holds no colon (in which case the Python unpacking
into two variables raises `ValueError`). -/
def splitFirstColon (s : String) : Option (String × String) :=
  if s.toList.contains ':' then
    some (String.mk (s.toList.takeWhile (· ≠ ':')),
          String.mk ((s.toList.dropWhile (· ≠ ':')).tail))
  else
    none

/-! ### Timestamp parsing

Models `datetime.strptime('{year} {mon} {day} {time}', '%Y %b %d %H:%M:%S')`
from `LogEntry.__init__` (log.py line 366).  The three tokens come from a
whitespace split so they contain no whitespace.  `%b` matches an abbreviated
month name case-insensitively; `%d`, `%H`, `%M` match one or two digits;
`%S` likewise, with the resulting value validated by the `datetime`
constructor (seconds 0–59, day within the month's length).  `%Y` requires a
four-digit year. -/

/-- A parsed timestamp (year, month, day, hour, minute, second). -/
structure DateTime where
  year : Nat
  month : Nat
  day : Nat
  hour : Nat
  minute : Nat
  second : Nat
deriving DecidableEq, Repr

/-- Abbreviated month names recognised by `%b` (C locale), lowercased. -/
def monthAbbrevs : List (String × Nat) :=
  [("jan", 1), ("feb", 2), ("mar", 3), ("apr", 4), ("may", 5), ("jun", 6),
   ("jul", 7), ("aug", 8), ("sep", 9), ("oct", 10), ("nov", 11), ("dec", 12)]

/-- Case-insensitive `%b` month lookup. -/
def monthOfAbbrev (s : String) : Option Nat :=
  (monthAbbrevs.find? (fun p => p.1 = String.mk (s.toList.map Char.toLower))).map (·.2)

/-- Numeric value of a digit string. -/
def digitsVal (cs : List Char) : Nat :=
  cs.foldl (fun a c => a * 10 + (c.toNat - 48)) 0

/-- A `%d`/`%H`/`%M`/`%S` token: one or two digits, nothing else. -/
def natToken (s : String) : Option Nat :=
  let cs := s.toList
  if cs ≠ [] && cs.length ≤ 2 && cs.all Char.isDigit then some (digitsVal cs) else none

/-- Gregorian leap-year rule used by `datetime`. -/
def isLeapYear (y : Nat) : Bool :=
  (y % 4 = 0 && y % 100 ≠ 0) || y % 400 = 0

/-- Number of days in a month, as validated by the `datetime` constructor. -/
def daysInMonth (y m : Nat) : Nat :=
  if m = 2 then (if isLeapYear y then 29 else 28)
  else if m = 4 || m = 6 || m = 9 || m = 11 then 30
  else 31

/-- Split on ':' into the list of separated pieces. -/
def splitColons (cs : List Char) : List (List Char) :=
  match cs with
  | [] => [[]]
  | c :: rest =>
    let tail := splitColons rest
    if c = ':' then [] :: tail
    else
      match tail with
      | [] => [[c]]
      | t :: ts => (c :: t) :: ts

/-- Models `datetime.strptime('{year} {mon} {day} {time}', '%Y %b %d %H:%M:%S')`
on whitespace-free tokens `mon`, `day`, `time`.  The year is supplied
numerically; `%Y` accepts exactly four digits, hence the range check. -/
def strptimeYMDT (year : Nat) (mon day time : String) : Option DateTime :=
  if year < 1000 || year > 9999 then none
  else
    match monthOfAbbrev mon, natToken day with
    | some m, some d =>
      match (splitColons time.toList).map (fun cs => natToken (String.mk cs)) with
      | [some h, some mi, some sec] =>
        if 1 ≤ d && d ≤ daysInMonth year m && h ≤ 23 && mi ≤ 59 && sec ≤ 59 then
          some ⟨year, m, d, h, mi, sec⟩
        else none
      | _ => none
    | _, _ => none

/-! ### Source pattern matching

Models the ordered `SOURCE_FORMATS` regular expression table
(log.py lines 53-60).  Each regex is anchored (`^...$`) and is translated
into a deterministic parser; the character classes are `[^>]`, `[^\s]`,
`[^\[]` and `\d`, within which greedy matching is deterministic.  Only ASCII
digits and the Python whitespace class are modelled. -/

/-- The named groups a source pattern can capture. -/
structure SourceMatch where
  version : Option String := none
  host : Option String := none
  program : Option String := none
  pid : Option String := none
  facility : Option String := none
  level : Option String := none
deriving DecidableEq, Repr

/-- Greedy parse of `(?P<host>[^\s]+)\s+` returning the host and remainder. -/
def matchHostWs (cs : List Char) : Option (String × List Char) :=
  let h := cs.takeWhile (fun c => !isPySpace c)
  let r := cs.dropWhile (fun c => !isPySpace c)
  let ws := r.takeWhile isPySpace
  let r2 := r.dropWhile isPySpace
  if h.isEmpty || ws.isEmpty then none else some (String.mk h, r2)

/-- Parse of `(?P<program>[^\[]+)\[(?P<pid>\d+)\]$`. -/
def matchProgPid (cs : List Char) : Option (String × String) :=
  let p := cs.takeWhile (· ≠ '[')
  let r := cs.dropWhile (· ≠ '[')
  if p.isEmpty then none
  else
    match r with
    | '[' :: r2 =>
      let ds := r2.takeWhile Char.isDigit
      let r3 := r2.dropWhile Char.isDigit
      if ds.isEmpty then none
      else if r3 = [']'] then some (String.mk p, String.mk ds) else none
    | _ => none

/-- Parse of `(?P<program>[^\[]+)$`. -/
def matchProgOnly (cs : List Char) : Option String :=
  if cs ≠ [] && cs.all (· ≠ '[') then some (String.mk cs) else none

/-- Parse of the leading `<(?P<version>[^>]+)>\s+` envelope. -/
def matchVersionEnv (cs : List Char) : Option (String × List Char) :=
  match cs with
  | '<' :: r =>
    let v := r.takeWhile (· ≠ '>')
    let r1 := r.dropWhile (· ≠ '>')
    if v.isEmpty then none
    else
      match r1 with
      | '>' :: r2 =>
        let ws := r2.takeWhile isPySpace
        let r3 := r2.dropWhile isPySpace
        if ws.isEmpty then none else some (String.mk v, r3)
      | _ => none
  | _ => none

/-- Parse of the leading `<(?P<facility>\d+)\.(?P<level>\d+)>\s+` envelope. -/
def matchFacLevEnv (cs : List Char) : Option (String × String × List Char) :=
  match cs with
  | '<' :: r =>
    let f := r.takeWhile Char.isDigit
    let r1 := r.dropWhile Char.isDigit
    if f.isEmpty then none
    else
      match r1 with
      | '.' :: r2 =>
        let l := r2.takeWhile Char.isDigit
        let r3 := r2.dropWhile Char.isDigit
        if l.isEmpty then none
        else
          match r3 with
          | '>' :: r4 =>
            let ws := r4.takeWhile isPySpace
            let r5 := r4.dropWhile isPySpace
            if ws.isEmpty then none else some (String.mk f, String.mk l, r5)
          | _ => none
      | _ => none
  | _ => none

/-- `SOURCE_FORMATS[0]`:
`^<(?P<version>[^>]+)>\s+(?P<host>[^\s]+)\s+(?P<program>[^\[]+)\[(?P<pid>\d+)\]$` -/
def sourceFormat0 (s : String) : Option SourceMatch := do
  let (v, r) ← matchVersionEnv s.toList
  let (h, r2) ← matchHostWs r
  let (p, pid) ← matchProgPid r2
  pure { version := some v, host := some h, program := some p, pid := some pid }

/-- `SOURCE_FORMATS[1]`:
`^<(?P<version>[^>]+)>\s+(?P<host>[^\s]+)\s+(?P<program>[^\[]+)$` -/
def sourceFormat1 (s : String) : Option SourceMatch := do
  let (v, r) ← matchVersionEnv s.toList
  let (h, r2) ← matchHostWs r
  let p ← matchProgOnly r2
  pure { version := some v, host := some h, program := some p }

/-- `SOURCE_FORMATS[2]`:
`^<(?P<facility>\d+)\.(?P<level>\d+)>\s+(?P<host>[^\s]+)\s+(?P<program>[^\[]+)\[(?P<pid>\d+)\]$` -/
def sourceFormat2 (s : String) : Option SourceMatch := do
  let (f, l, r) ← matchFacLevEnv s.toList
  let (h, r2) ← matchHostWs r
  let (p, pid) ← matchProgPid r2
  pure { facility := some f, level := some l, host := some h,
         program := some p, pid := some pid }

/-- `SOURCE_FORMATS[3]`:
`^<(?P<facility>\d+)\.(?P<level>\d+)>\s+(?P<host>[^\s]+)\s+(?P<program>[^\[]+)$` -/
def sourceFormat3 (s : String) : Option SourceMatch := do
  let (f, l, r) ← matchFacLevEnv s.toList
  let (h, r2) ← matchHostWs r
  let p ← matchProgOnly r2
  pure { facility := some f, level := some l, host := some h, program := some p }

/-- `SOURCE_FORMATS[4]`: `^(?P<host>[^\s]+)\s+(?P<program>[^\[]+)\[(?P<pid>\d+)\]$` -/
def sourceFormat4 (s : String) : Option SourceMatch := do
  let (h, r) ← matchHostWs s.toList
  let (p, pid) ← matchProgPid r
  pure { host := some h, program := some p, pid := some pid }

/-- `SOURCE_FORMATS[5]`: `^(?P<host>[^\s]+)\s+(?P<program>[^\[]+)$` -/
def sourceFormat5 (s : String) : Option SourceMatch := do
  let (h, r) ← matchHostWs s.toList
  let p ← matchProgOnly r
  pure { host := some h, program := some p }

/-- The default ordered source-pattern table `SOURCE_FORMATS`
(log.py lines 53-60): order is significant, first match wins. -/
def SOURCE_FORMATS : List (String → Option SourceMatch) :=
  [sourceFormat0, sourceFormat1, sourceFormat2, sourceFormat3,
   sourceFormat4, sourceFormat5]

/-- First matching pattern wins (the `for fmt in source_formats` loop,
log.py lines 372-377). -/
def firstSourceMatch (fmts : List (String → Option SourceMatch)) (s : String) :
    Option SourceMatch :=
  match fmts with
  | [] => none
  | f :: rest =>
    match f s with
    | some m => some m
    | none => firstSourceMatch rest s

/-! ### LogEntry

Models `systematic.log.LogEntry` (log.py lines 345-396).  The `logfile`
back-reference (identity only) and the `message_fields` extension map (set to
`{}` and only touched by the unused `update_message_fields`) are not modelled:
no claim mentions them.  Attributes that `__init__` initialises to `None` or
that are only created by `setattr` on a pattern match are all modelled as
`Option String` defaulting to `none`. -/

/-- A parsed syslog entry. -/
structure LogEntry where
  line : String
  time : DateTime
  source : Option String
  message : String
  version : Option String := none
  host : Option String := none
  program : Option String := none
  pid : Option String := none
  facility : Option String := none
  level : Option String := none
deriving DecidableEq, Repr

/-- Apply the named groups of a source-pattern match to the entry
(the `setattr` loop, log.py lines 375-376).  All six capturable fields are
`none` before the match, so overwriting with the match record's fields is the
same as setting exactly the captured groups. -/
def applyMatch (e : LogEntry) (m : SourceMatch) : LogEntry :=
  { e with version := m.version, host := m.host, program := m.program,
           pid := m.pid, facility := m.facility, level := m.level }

/-- Models `LogEntry.__init__(self, logfile, line, year, source_formats)`
(log.py lines 349-382) with the default `SOURCE_FORMATS` table.
Failures modelled by `.error` are the `LogFileError` raises. -/
def LogEntry.parse (rawLine : String) (year : Nat) : Except String LogEntry :=
  let line := pyRstrip rawLine
  match pySplitWs3 line with
  | none => .error ("Error splitting log line: " ++ line)
  | some (mon, day, time, rest) =>
    match strptimeYMDT year mon day time with
    | none => .error ("Error parsing entry time from line: " ++ line)
    | some t =>
      match splitFirstColon rest with
      | none =>
        -- Lines like '--- last message repeated 2 times ---'
        .ok { line := line, time := t, source := none, message := rest }
      | some (a, b) =>
        let src := pyStrip a
        let msg := pyStrip b
        let base : LogEntry := { line := line, time := t, source := some src,
                                 message := msg }
        match firstSourceMatch SOURCE_FORMATS src with
        | some m => .ok (applyMatch base m)
        | none => .ok base

/-- Models `LogEntry.append` (log.py lines 392-393):
`self.message = '...'.format(self.message, message.rstrip())`. -/
def LogEntry.append (e : LogEntry) (message : String) : LogEntry :=
  { e with message := e.message ++ "\n" ++ pyRstrip message }

/-! ### LogFile state

Models the mutable state of a `systematic.log.LogFile` object
(log.py lines 399-665).  The Python object is itself a `list` (the entry
cache); here the cache is the `entries` field.  The iterator dictionary is an
association list from names to optional positions.  The open file handle
`self.fd` is `none` or the list of not-yet-read lines (each line without its
trailing newline; end of list is end of file).  `pathLines`/`pathYear` model
the file on disk: `__open_logfile__` (abstracted over the gzip/bz2/plain
probing, which transparently yields the decoded lines) delivers `pathLines`,
and `datetime.fromtimestamp(os.stat(path).st_mtime).year` delivers
`pathYear`.  Only string paths are modelled; no claim uses a file-like
`path` object. -/

/-- State of one `LogFile`. -/
structure LFState where
  entries : List LogEntry
  iterators : List (String × Option Nat)
  loaded : Bool
  fd : Option (List String)
  mtimeYear : Nat
  pathLines : List String
  pathYear : Nat
deriving DecidableEq, Repr

/-- Dictionary lookup in the iterator map: `none` models a `KeyError`
(name not registered), `some v` the stored value. -/
def iterLookup (its : List (String × Option Nat)) (n : String) : Option (Option Nat) :=
  (its.find? (fun p => p.1 = n)).map (·.2)

/-- Dictionary store in the iterator map. -/
def iterSet (its : List (String × Option Nat)) (n : String) (v : Option Nat) :
    List (String × Option Nat) :=
  its.map (fun p => if p.1 = n then (p.1, v) else p)

/-- Models `LogFile.register_iterator` (log.py lines 430-433). -/
def registerIterator (s : LFState) (name : String) : Except String LFState :=
  if (iterLookup s.iterators name).isSome then
    .error ("Iterator name already registered: " ++ name)
  else
    .ok { s with iterators := s.iterators ++ [(name, none)] }

/-! ### readline

Models `LogFile.readline` (log.py lines 570-601).  The recursion on
continuation lines is the `return self.readline()` self-call.  `readAux`
processes the pending lines and returns the remaining lines, the new cache
and the outcome; `.ok none` models the `''` read at end of file (which sets
`self.__loaded`), `.error` a `LogFileError` raised by the line loader. -/

/-- Replace the last element of a list (`self[-1]` mutation). -/
def updateLast (f : LogEntry → LogEntry) : List LogEntry → List LogEntry
  | [] => []
  | [a] => [f a]
  | a :: rest => a :: updateLast f rest

/-- One `readline` call on an open handle: consumes continuation lines
(appending them to the last cached entry) until a regular line is parsed,
end of file is reached, or parsing fails. -/
def readAux (year : Nat) : List String → List LogEntry →
    List String × List LogEntry × Except String (Option LogEntry)
  | [], es => ([], es, .ok none)
  | l :: rest, es =>
    if (l.take 1 = " " || l.take 1 = "\t") && !es.isEmpty then
      readAux year rest (updateLast (fun e => e.append l) es)
    else
      match LogEntry.parse l year with
      | .ok e => (rest, es ++ [e], .ok (some e))
      | .error m => (rest, es, .error m)

/-- Models `LogFile.readline` (log.py lines 570-601); raises
`LogFileError('File is not loaded')` when no handle is open, and sets
`self.__loaded` exactly when the empty-string read occurs. -/
def LFState.readline (s : LFState) : LFState × Except String (Option LogEntry) :=
  match s.fd with
  | none => (s, .error "File is not loaded")
  | some lines =>
    match readAux s.mtimeYear lines s.entries with
    | (lines2, es2, r) =>
      ({ s with fd := some lines2, entries := es2,
                loaded := s.loaded || (r matches .ok none) }, r)

/-! ### next_iterator_match

Models `LogFile.next_iterator_match(iterator, callback=None)` with
`callback=None` (log.py lines 508-568); every claim calls `advance` without a
predicate, and with `callback=None` each `while True` loop body returns or
raises on its first iteration.  `StopIteration` and `LogFileError` are the
two possible exceptions.  The branch on `self.__loaded` follows the source
exactly, including the `if self.fd is not None:` re-open condition as
written (log.py line 517) and the `len(self)-1` arithmetic of
`self.get_iterator(iterator) < len(self)-1` and
`self.update_iterator(iterator, len(self)-1)` (Python's `-1` on an empty
cache makes the comparison false, as does truncated `Nat` subtraction). -/

/-- Exceptions escaping `next_iterator_match`. -/
inductive IterErr where
  | stop
  | err (msg : String)
deriving DecidableEq, Repr

/-- Models `LogFile.next_iterator_match(iterator)` without a callback. -/
def nextIteratorMatch (s : LFState) (name : String) : LFState × Except IterErr LogEntry :=
  match iterLookup s.iterators name with
  | none => (s, .error (.err ("Unknown iterator: " ++ name)))
  | some cur =>
    if s.loaded then
      -- cached-entry branch (log.py lines 550-568)
      let p := cur.getD 0
      let s1 := if cur = none then
                  { s with iterators := iterSet s.iterators name (some 0) }
                else s
      match s1.entries[p]? with
      | some e => ({ s1 with iterators := iterSet s1.iterators name (some (p + 1)) }, .ok e)
      | none => ({ s1 with iterators := iterSet s1.iterators name none }, .error .stop)
    else
      -- not-yet-loaded branch (log.py lines 516-548)
      let s1 := if s.fd ≠ none then
                  { s with fd := some s.pathLines, mtimeYear := s.pathYear }
                else s
      let p := cur.getD 0
      let s2 := if cur = none then
                  { s1 with iterators := iterSet s1.iterators name (some 0) }
                else s1
      if p < s2.entries.length - 1 then
        match s2.entries[p]? with
        | none =>
          -- the IndexError handler; unreachable when p < len - 1
          ({ s2 with iterators := iterSet s2.iterators name none }, .error .stop)
        | some e =>
          ({ s2 with iterators :=
               iterSet s2.iterators name (some (s2.entries.length - 1)) }, .ok e)
      else
        match s2.readline with
        | (s3, .error m) => (s3, .error (.err m))
        | (s3, .ok none) =>
          ({ s3 with iterators := iterSet s3.iterators name none }, .error .stop)
        | (s3, .ok (some e)) =>
          ({ s3 with iterators :=
               iterSet s3.iterators name (some (s3.entries.length - 1)) }, .ok e)

/-- Models `LogFile.reload` (log.py lines 603-614): clear the cache, clear
the loaded flag, then `return next(self)` (the default cursor), turning
`StopIteration` into a plain `None` return.  A `LogFileError` raised inside
`next` propagates. -/
def LFState.reload (s : LFState) : LFState × Except String (Option LogEntry) :=
  let s1 := { s with entries := [], loaded := false }
  match nextIteratorMatch s1 "default" with
  | (s2, .ok e) => (s2, .ok (some e))
  | (s2, .error .stop) => (s2, .ok none)
  | (s2, .error (.err m)) => (s2, .error m)

/-- Models the list comprehension `[x for x in self if ...]` of the bulk
filters.  `LogFile.__iter__` returns `self` (log.py lines 427-428), so the
comprehension repeatedly calls `next_iterator_match` on the default cursor,
keeping the entries the predicate accepts, until `StopIteration`; a
`LogFileError` raised inside propagates to the caller.  `fuel` bounds the
number of iterations examined: the `.error "out of fuel"` outcome is a
modelling artifact marking that the comprehension did not finish within
`fuel` calls — it is distinct from every error string the code produces,
and establishing it for every `fuel` shows the comprehension never
terminates. -/
def lfDrainFilter (pred : LogEntry → Bool) :
    Nat → LFState → LFState × Except String (List LogEntry)
  | 0, s => (s, .error "out of fuel")
  | n + 1, s =>
    match nextIteratorMatch s "default" with
    | (s1, .ok e) =>
      match lfDrainFilter pred n s1 with
      | (s2, .ok es) => (s2, .ok (if pred e then e :: es else es))
      | (s2, .error m) => (s2, .error m)
    | (s1, .error .stop) => (s1, .ok [])
    | (s1, .error (.err m)) => (s1, .error m)

/-- Models `LogFile.filter_host` (log.py lines 616-623): a reload when the
cache is empty, then the comprehension over `self`. -/
def LFState.filter_host (s : LFState) (host : String) (fuel : Nat) :
    LFState × Except String (List LogEntry) :=
  if s.entries.length = 0 then
    match s.reload with
    | (s1, .error m) => (s1, .error m)
    | (s1, .ok _) => lfDrainFilter (fun e => e.host = some host) fuel s1
  else
    lfDrainFilter (fun e => e.host = some host) fuel s

/-- Models `LogFile.filter_program` (log.py lines 625-632). -/
def LFState.filter_program (s : LFState) (program : String) (fuel : Nat) :
    LFState × Except String (List LogEntry) :=
  if s.entries.length = 0 then
    match s.reload with
    | (s1, .error m) => (s1, .error m)
    | (s1, .ok _) => lfDrainFilter (fun e => e.program = some program) fuel s1
  else
    lfDrainFilter (fun e => e.program = some program) fuel s

/-- Models `LogFile.filter_message` (log.py lines 634-645); the compiled
regular expression's `.match` test on the message is abstracted as the
Boolean predicate `msgMatch`. -/
def LFState.filter_message (s : LFState) (msgMatch : String → Bool) (fuel : Nat) :
    LFState × Except String (List LogEntry) :=
  if s.entries.length = 0 then
    match s.reload with
    | (s1, .error m) => (s1, .error m)
    | (s1, .ok _) => lfDrainFilter (fun e => msgMatch e.message) fuel s1
  else
    lfDrainFilter (fun e => msgMatch e.message) fuel s

/-! ### LogFileCollection

Models `systematic.log.LogFileCollection` (log.py lines 668-743).
`self.__iter_entry` always references `self.logfiles[self.__iter_index]`
(it is only ever assigned from that list), so the state keeps just the
index; mutations of the current `LogFile` through the reference are written
back into the list. -/

/-- State of a `LogFileCollection`. -/
structure LFCState where
  logfiles : List LFState
  iterIndex : Option Nat
deriving DecidableEq, Repr

/-- Models `LogFileCollection.next` (log.py lines 715-743). -/
def collNext (c : LFCState) : LFCState × Except IterErr LogEntry :=
  if c.logfiles.isEmpty then (c, .error .stop)
  else
    let idx := c.iterIndex.getD 0
    let c0 := if c.iterIndex = none then { c with iterIndex := some 0 } else c
    match c0.logfiles[idx]? with
    | none => (c0, .error (.err "stale iterator index"))
    | some lf =>
      match nextIteratorMatch lf "default" with
      | (lf1, .ok e) =>
        ({ c0 with logfiles := c0.logfiles.set idx lf1 }, .ok e)
      | (lf1, .error (.err m)) =>
        ({ c0 with logfiles := c0.logfiles.set idx lf1 }, .error (.err m))
      | (lf1, .error .stop) =>
        let c1 := { c0 with logfiles := c0.logfiles.set idx lf1 }
        if idx < c1.logfiles.length - 1 then
          let idx2 := idx + 1
          let c2 := { c1 with iterIndex := some idx2 }
          match c2.logfiles[idx2]? with
          | none => (c2, .error (.err "stale iterator index"))
          | some lf2 =>
            match nextIteratorMatch lf2 "default" with
            | (lf3, .ok e) =>
              ({ c2 with logfiles := c2.logfiles.set idx2 lf3 }, .ok e)
            | (lf3, .error (.err m)) =>
              ({ c2 with logfiles := c2.logfiles.set idx2 lf3 }, .error (.err m))
            | (lf3, .error .stop) =>
              ({ c2 with logfiles := c2.logfiles.set idx2 lf3, iterIndex := none },
               .error .stop)
        else
          ({ c1 with iterIndex := none }, .error .stop)

/-- Drive `collNext` until it raises, collecting the yielded entries.
`.ok ()` records that iteration ended with the ordinary `StopIteration`
signal; `.error` records a `LogFileError` (or fuel exhaustion, a modelling
artifact never reached with sufficient fuel). -/
def collDrain : Nat → LFCState → List LogEntry × Except String Unit
  | 0, _ => ([], .error "out of fuel")
  | n + 1, c =>
    match collNext c with
    | (c1, .ok e) =>
      match collDrain n c1 with
      | (l, r) => (e :: l, r)
    | (_, .error .stop) => ([], .ok ())
    | (_, .error (.err m)) => ([], .error m)

/-! ### LogFileCollection construction order

Models the ordering part of `LogFileCollection.__init__`
(log.py lines 680-707): stat every path, group paths by `int(st.st_mtime)`
(modification time truncated toward zero to whole seconds), sort each
group's paths with `list.sort()` (lexicographic string order), and
concatenate the groups by ascending timestamp key (`sorted(stats.keys())`).
The filesystem is abstracted as the total map `stat` from paths to
modification times (rationals standing for the floating-point seconds);
`Python list.sort()` and `sorted` are modelled with `List.insertionSort`,
which produces the same (sorted) result. -/

/-- Python `int()` truncation toward zero of a rational (`int(st.st_mtime)`):
the numerator T-divided (truncating toward zero) by the denominator. -/
def truncMtime (q : ℚ) : Int := q.num.tdiv (q.den : Int)

/-- The ordered path list a `LogFileCollection` builds its `LogFile` list
from; the collection's `logfiles` are the loaded `LogFile` objects of these
paths in this order. -/
def lfcOrder (stat : String → ℚ) (paths : List String) : List String :=
  let key := fun p => truncMtime (stat p)
  let tss := List.insertionSort (· ≤ ·) (paths.map key).dedup
  tss.flatMap (fun ts =>
    List.insertionSort (· ≤ ·) (paths.filter (fun p => key p = ts)))

/-- The pairwise order the collection's file list realises: ascending
modification time truncated to whole seconds, ties broken by lexicographic
path order. -/
def lexLe (stat : String → ℚ) (a b : String) : Prop :=
  truncMtime (stat a) < truncMtime (stat b) ∨
    (truncMtime (stat a) = truncMtime (stat b) ∧ a ≤ b)

instance (stat : String → ℚ) : DecidableRel (lexLe stat) := fun a b => by
  unfold lexLe
  infer_instance

/-! ### Tail reader

Models the steady-state line-delivery loop of `TailReader.readline`
(tail.py lines 95-146) for a stable, already-open file: rotation and
truncation detection, re-opening and sleeping are not exercised by any
claim, so the loop is modelled on the pending lines of the open handle.
Each available line is passed (rstripped) to `__format_line__`; any
exception the formatter raises is swallowed and the loop keeps reading
(tail.py lines 126-131).  When no line is available the reader blocks
polling forever, modelled as `none`. -/

/-- The skip-on-format-failure loop of `TailReader.readline`. -/
def tailReadline {α : Type} (formatLine : String → Except String α) :
    List String → Option α
  | [] => none
  | l :: rest =>
    match formatLine (pyRstrip l) with
    | .ok a => some a
    | .error _ => tailReadline formatLine rest

/-! ### Concrete instances used by counterexamples and witnesses -/

/-- A bare entry used to populate caches in concrete states. -/
def plainEntry (msg : String) : LogEntry :=
  { line := "x", time := ⟨2024, 1, 1, 0, 0, 0⟩, source := none, message := msg }

/-- A parseable log line with message `msg` (host `h`, program `p`). -/
def mkLine (msg : String) : String := "Jan 1 00:00:00 h p: " ++ msg

/-- The entry `mkLine msg` parses to with reference year 2024. -/
def mkEntry (msg : String) : LogEntry :=
  { line := mkLine msg, time := ⟨2024, 1, 1, 0, 0, 0⟩, source := some "h p",
    message := msg, host := some "h", program := some "p" }

/-- C1 counterexample state: not yet loaded, three cached entries, cursor
`A` at position 0, no open handle. -/
def stateC1 : LFState :=
  { entries := [plainEntry "a", plainEntry "b", plainEntry "c"],
    iterators := [("default", none), ("A", some 0)],
    loaded := false, fd := none, mtimeYear := 2024, pathLines := [], pathYear := 2024 }

/-- C2 counterexample state: a fully loaded file with one cached entry, the
default cursor at 5 and a second cursor `a` at 7, with two lines on disk. -/
def stateC2 : LFState :=
  { entries := [plainEntry "old"], iterators := [("default", some 5), ("a", some 7)],
    loaded := true, fd := some [], mtimeYear := 2024,
    pathLines := [mkLine "m1", mkLine "m2"], pathYear := 2024 }

/-- C3 counterexample state: empty cache, open handle, two parseable lines
with host `h` on disk. -/
def stateC3 : LFState :=
  { entries := [], iterators := [("default", none)],
    loaded := false, fd := some [], mtimeYear := 2024,
    pathLines := [mkLine "m1", mkLine "m2"], pathYear := 2024 }

/-- C3 counterexample state: a loaded file with two cached matching entries
whose default cursor sits at position 1, plus a second cursor `a`. -/
def stateC3b : LFState :=
  { entries := [mkEntry "m1", mkEntry "m2"],
    iterators := [("default", some 1), ("a", some 0)],
    loaded := true, fd := none, mtimeYear := 2024, pathLines := [], pathYear := 2024 }

/-- C8 counterexample state: not yet loaded, one cached entry, cursor `A`
at 0 and cursor `B` unset, with two parseable lines on disk. -/
def stateC8 : LFState :=
  { entries := [plainEntry "X"], iterators := [("A", some 0), ("B", none)],
    loaded := false, fd := some [mkLine "m2"], mtimeYear := 2024,
    pathLines := [mkLine "m1", mkLine "m2"], pathYear := 2024 }

/-- A fully loaded `LogFile` state holding `es`, with only the default
cursor, unset. -/
def loadedLF (es : List LogEntry) : LFState :=
  { entries := es, iterators := [("default", none)], loaded := true, fd := none,
    mtimeYear := 2024, pathLines := [], pathYear := 2024 }

/-- C5 counterexample collection: the middle member yields no entries. -/
def collC5 : LFCState :=
  { logfiles := [loadedLF [plainEntry "1"], loadedLF [], loadedLF [plainEntry "3"]],
    iterIndex := none }

/-- `k` successive `advance` calls on one named cursor; the returned entry
or exception of each call is discarded, the state mutations persist. -/
def advanceN (name : String) : Nat → LFState → LFState
  | 0, s => s
  | k + 1, s => advanceN name k (nextIteratorMatch s name).1

/-- The state `reload` produces from `s` when the handle was open and the
first disk line parsed to `e`, leaving `rest` unread. -/
def afterReload (s : LFState) (rest : List String) (e : LogEntry) : LFState :=
  { s with entries := [e], loaded := false, fd := some rest,
           mtimeYear := s.pathYear,
           iterators := iterSet s.iterators "default" (some 0) }

/-- C1/C8 witness state: a loaded file with two cached entries and cursors
`A` (at 0) and `B` (at 1). -/
def stateW1 : LFState :=
  { entries := [plainEntry "a", plainEntry "b"],
    iterators := [("A", some 0), ("B", some 1)],
    loaded := true, fd := none, mtimeYear := 2024, pathLines := [], pathYear := 2024 }

/-- A line whose month token parses to no month: `LogEntry.parse` fails. -/
def badLine : String := "Xxx 1 00:00:00 h p: m"

/-- C9 witness state: not loaded, open handle, an unparseable first line on
disk. -/
def stateC9 : LFState :=
  { entries := [], iterators := [("default", none)], loaded := false,
    fd := some [], mtimeYear := 2024, pathLines := [badLine], pathYear := 2024 }

/-- A continuation-looking line (leading space) that still parses, because
`split(None, 3)` discards leading whitespace. -/
def contLine : String := " Jan 1 00:00:00 h p: m"

/-- The entry `contLine` parses to with reference year 2024. -/
def contEntry : LogEntry :=
  { line := contLine, time := ⟨2024, 1, 1, 0, 0, 0⟩, source := some "h p",
    message := "m", host := some "h", program := some "p" }

/-- C10 witness state: empty cache, the whitespace-led `contLine` pending. -/
def stateC10 : LFState :=
  { entries := [], iterators := [("default", none)], loaded := false,
    fd := some [contLine], mtimeYear := 2024, pathLines := [contLine],
    pathYear := 2024 }

/-- C6 witness state: empty cache, a parseable line followed by two
continuation lines and one further parseable line. -/
def stateC6 : LFState :=
  { entries := [], iterators := [("default", none)], loaded := false,
    fd := some [mkLine "m1", " cont1", "\tcont2", mkLine "m2"],
    mtimeYear := 2024, pathLines := [], pathYear := 2024 }

/-- C4 witness stat map: three files with distinct truncated seconds. -/
def statW : String → ℚ := fun p =>
  if p = "app.log" then 7 else if p = "app.log.1" then mkRat 5 2 else 1

/-! ### Helper lemmas: iterator dictionary -/

theorem iterLookup_iterSet_self {its : List (String × Option Nat)} {n : String}
    {v0 : Option Nat} (h : iterLookup its n = some v0) (v : Option Nat) :
    iterLookup (iterSet its n v) n = some v := by
  induction its with
  | nil => simp [iterLookup] at h
  | cons p rest ih =>
    by_cases hp : p.1 = n
    · simp [iterLookup, iterSet, List.find?_cons_of_pos, hp]
    · simp only [iterLookup, iterSet, List.map_cons, if_neg hp] at *
      rw [List.find?_cons_of_neg _ (by simpa using hp)] at h
      rw [List.find?_cons_of_neg _ (by simpa using hp)]
      exact ih h

theorem iterLookup_iterSet_ne {its : List (String × Option Nat)} {n m : String}
    (hnm : m ≠ n) (v : Option Nat) :
    iterLookup (iterSet its n v) m = iterLookup its m := by
  induction its with
  | nil => simp [iterLookup, iterSet]
  | cons p rest ih =>
    by_cases hp : p.1 = n
    · have hm : ¬ p.1 = m := by rw [hp]; exact fun hh => hnm hh.symm
      simp only [iterLookup, iterSet, List.map_cons, if_pos hp]
      rw [List.find?_cons_of_neg _ (by simpa using hm),
          List.find?_cons_of_neg _ (by simpa using hm)]
      exact ih
    · by_cases hm : p.1 = m
      · simp only [iterLookup, iterSet, List.map_cons, if_neg hp]
        rw [List.find?_cons_of_pos _ (by simpa using hm),
            List.find?_cons_of_pos _ (by simpa using hm)]
      · simp only [iterLookup, iterSet, List.map_cons, if_neg hp]
        rw [List.find?_cons_of_neg _ (by simpa using hm),
            List.find?_cons_of_neg _ (by simpa using hm)]
        exact ih

theorem iterSet_iterSet_same (its : List (String × Option Nat)) (n : String)
    (a b : Option Nat) : iterSet (iterSet its n a) n b = iterSet its n b := by
  simp only [iterSet, List.map_map]
  apply List.map_congr_left
  intro p _
  by_cases hp : p.1 = n <;> simp [Function.comp, hp]

/-! ### Helper lemmas: `next_iterator_match` on a loaded file -/

theorem nim_unknown (s : LFState) (name : String)
    (h : iterLookup s.iterators name = none) :
    nextIteratorMatch s name = (s, .error (.err ("Unknown iterator: " ++ name))) := by
  unfold nextIteratorMatch
  rw [h]

theorem nim_loaded_pos (s : LFState) (name : String) (p : Nat)
    (h : iterLookup s.iterators name = some (some p)) (hl : s.loaded = true)
    (hp : p < s.entries.length) :
    nextIteratorMatch s name =
      ({ s with iterators := iterSet s.iterators name (some (p + 1)) },
       .ok (s.entries[p])) := by
  unfold nextIteratorMatch
  rw [h]
  simp [hl, List.getElem?_eq_getElem hp]

theorem nim_loaded_stop (s : LFState) (name : String) (p : Nat)
    (h : iterLookup s.iterators name = some (some p)) (hl : s.loaded = true)
    (hp : s.entries.length ≤ p) :
    nextIteratorMatch s name =
      ({ s with iterators := iterSet s.iterators name none }, .error .stop) := by
  unfold nextIteratorMatch
  rw [h]
  simp [hl, List.getElem?_eq_none hp]

theorem nim_loaded_unset (s : LFState) (name : String)
    (h : iterLookup s.iterators name = some none) (hl : s.loaded = true)
    (hne : s.entries ≠ []) :
    nextIteratorMatch s name =
      ({ s with iterators := iterSet s.iterators name (some 1) },
       .ok (s.entries.get ⟨0, List.length_pos.mpr hne⟩)) := by
  unfold nextIteratorMatch
  rw [h]
  simp [hl, List.getElem?_eq_getElem (List.length_pos.mpr hne), iterSet_iterSet_same]

theorem nim_loaded_unset_empty (s : LFState) (name : String)
    (h : iterLookup s.iterators name = some none) (hl : s.loaded = true)
    (he : s.entries = []) :
    nextIteratorMatch s name =
      ({ s with iterators := iterSet s.iterators name none }, .error .stop) := by
  unfold nextIteratorMatch
  rw [h]
  simp [hl, he, iterSet_iterSet_same]

/-- Advancing any cursor of a loaded file changes only the iterator
dictionary, and only at that cursor's key. -/
theorem nim_loaded_frame (s : LFState) (name : String) (hl : s.loaded = true) :
    (nextIteratorMatch s name).1.loaded = true ∧
    (nextIteratorMatch s name).1.entries = s.entries ∧
    (nextIteratorMatch s name).1.fd = s.fd ∧
    ∀ m, m ≠ name →
      iterLookup (nextIteratorMatch s name).1.iterators m = iterLookup s.iterators m := by
  rcases hcur : iterLookup s.iterators name with _ | (_ | p)
  · rw [nim_unknown s name hcur]
    exact ⟨hl, rfl, rfl, fun m _ => rfl⟩
  · by_cases he : s.entries = []
    · rw [nim_loaded_unset_empty s name hcur hl he]
      exact ⟨hl, rfl, rfl, fun m hm => iterLookup_iterSet_ne hm none⟩
    · rw [nim_loaded_unset s name hcur hl he]
      exact ⟨hl, rfl, rfl, fun m hm => iterLookup_iterSet_ne hm (some 1)⟩
  · by_cases hp : p < s.entries.length
    · rw [nim_loaded_pos s name p hcur hl hp]
      exact ⟨hl, rfl, rfl, fun m hm => iterLookup_iterSet_ne hm (some (p + 1))⟩
    · rw [nim_loaded_stop s name p hcur hl (Nat.le_of_not_lt hp)]
      exact ⟨hl, rfl, rfl, fun m hm => iterLookup_iterSet_ne hm none⟩

/-- On loaded files, the value returned by an advance is a function of the
loaded flag, the cache and that cursor's stored position alone. -/
theorem nim_loaded_result_congr (s s2 : LFState) (name : String)
    (hl : s.loaded = true) (hl2 : s2.loaded = true)
    (he : s.entries = s2.entries)
    (hi : iterLookup s.iterators name = iterLookup s2.iterators name) :
    (nextIteratorMatch s name).2 = (nextIteratorMatch s2 name).2 := by
  rcases hcur : iterLookup s2.iterators name with _ | (_ | p)
  · rw [nim_unknown s name (hi.trans hcur), nim_unknown s2 name hcur]
  · by_cases hemp : s2.entries = []
    · rw [nim_loaded_unset_empty s name (hi.trans hcur) hl (he ▸ hemp),
          nim_loaded_unset_empty s2 name hcur hl2 hemp]
    · rw [nim_loaded_unset s name (hi.trans hcur) hl (he ▸ hemp),
          nim_loaded_unset s2 name hcur hl2 hemp]
      simp [he]
  · by_cases hp : p < s2.entries.length
    · rw [nim_loaded_pos s name p (hi.trans hcur) hl (he ▸ hp),
          nim_loaded_pos s2 name p hcur hl2 hp]
      simp [he]
    · rw [nim_loaded_stop s name p (hi.trans hcur) hl (he ▸ Nat.le_of_not_lt hp),
          nim_loaded_stop s2 name p hcur hl2 (Nat.le_of_not_lt hp)]

/-! ### Helper lemmas: `next_iterator_match` on a not-yet-loaded file
with an open handle and an empty cache (the configuration `reload` puts the
state into). -/

theorem nim_notloaded_read (s : LFState) (name : String) (cur : Option Nat)
    (hreg : iterLookup s.iterators name = some cur)
    (hnl : s.loaded = false)
    (hfd : s.fd ≠ none)
    (hent : s.entries = [])
    (l : String) (rest : List String) (hpl : s.pathLines = l :: rest)
    (e : LogEntry) (hparse : LogEntry.parse l s.pathYear = .ok e) :
    nextIteratorMatch s name =
      ({ s with fd := some rest, mtimeYear := s.pathYear, entries := [e],
                iterators := iterSet s.iterators name (some 0) }, .ok e) := by
  unfold nextIteratorMatch
  rw [hreg]
  simp only [hnl, Bool.false_eq_true, if_false, if_neg (by simp [hfd] : ¬ s.fd = none),
    ne_eq, hfd, not_false_eq_true, if_pos]
  rcases cur with _ | p
  · simp [LFState.readline, hpl, readAux, hent, hparse, iterSet_iterSet_same]
  · simp [LFState.readline, hpl, readAux, hent, hparse]

theorem nim_notloaded_error_result (s : LFState) (name : String) (cur : Option Nat)
    (hreg : iterLookup s.iterators name = some cur)
    (hnl : s.loaded = false)
    (hfd : s.fd ≠ none)
    (hent : s.entries = [])
    (l : String) (rest : List String) (hpl : s.pathLines = l :: rest)
    (m : String) (hparse : LogEntry.parse l s.pathYear = .error m) :
    (nextIteratorMatch s name).2 = .error (.err m) := by
  unfold nextIteratorMatch
  rw [hreg]
  simp only [hnl, Bool.false_eq_true, if_false, ne_eq, hfd, not_false_eq_true, if_pos]
  rcases cur with _ | p
  · simp [LFState.readline, hpl, readAux, hent, hparse]
  · simp [LFState.readline, hpl, readAux, hent, hparse]

/-- One not-yet-loaded advance past the cached region on a file with an
open handle: the file is re-opened from the start (log.py line 517), its
first line is parsed and appended to the cache — duplicating it whenever
the cache already came from that line — and the cursor is set to the new
last index. -/
theorem nim_notloaded_append (s : LFState) (name : String) (p : Nat)
    (hreg : iterLookup s.iterators name = some (some p))
    (hnl : s.loaded = false)
    (hfd : s.fd ≠ none)
    (hple : ¬ p < s.entries.length - 1)
    (l : String) (rest : List String) (hpl : s.pathLines = l :: rest)
    (hcond : ((l.take 1 = " " || l.take 1 = "\t") && !s.entries.isEmpty) = false)
    (e : LogEntry) (hparse : LogEntry.parse l s.pathYear = .ok e) :
    nextIteratorMatch s name =
      ({ s with fd := some rest, mtimeYear := s.pathYear,
                entries := s.entries ++ [e],
                iterators := iterSet s.iterators name
                  (some ((s.entries ++ [e]).length - 1)) }, .ok e) := by
  unfold nextIteratorMatch
  rw [hreg]
  simp only [hnl, Bool.false_eq_true, if_false, ne_eq, hfd, not_false_eq_true, if_pos]
  simp [LFState.readline, hpl, readAux, hple, hcond, hparse]

/-- What `reload` actually does when the handle is open and the first line
on disk parses: clear the cache, re-open, parse exactly one entry, leave the
default cursor at 0 and all other cursors untouched. -/
theorem reload_head_ok (s : LFState) (cur : Option Nat) (l : String)
    (rest : List String) (e : LogEntry)
    (hreg : iterLookup s.iterators "default" = some cur)
    (hfd : s.fd ≠ none)
    (hpl : s.pathLines = l :: rest)
    (hparse : LogEntry.parse l s.pathYear = .ok e) :
    s.reload = ({ s with entries := [e], loaded := false, fd := some rest,
                         mtimeYear := s.pathYear,
                         iterators := iterSet s.iterators "default" (some 0) },
                .ok (some e)) := by
  have h := nim_notloaded_read { s with entries := [], loaded := false } "default" cur
    hreg rfl hfd rfl l rest hpl e hparse
  simp only [LFState.reload]
  rw [h]

/-! ### Helper lemmas: `readline` and continuation merging -/

theorem updateLast_append_one (f : LogEntry → LogEntry) (es : List LogEntry)
    (x : LogEntry) : updateLast f (es ++ [x]) = es ++ [f x] := by
  induction es with
  | nil => rfl
  | cons a es ih =>
    cases es with
    | nil => rfl
    | cons b es2 =>
      simp only [List.cons_append, updateLast, List.append_eq] at *
      rw [ih]

/-- Consuming a run of continuation lines folds them into the last cached
entry, one `append` per line, in file order. -/
theorem readAux_cont_run (year : Nat) (cs : List String)
    (hcont : ∀ c ∈ cs, c.take 1 = " " ∨ c.take 1 = "\t")
    (rest : List String) (es : List LogEntry) (x : LogEntry) :
    readAux year (cs ++ rest) (es ++ [x]) =
      readAux year rest (es ++ [cs.foldl LogEntry.append x]) := by
  induction cs generalizing x with
  | nil => rfl
  | cons c cs ih =>
    have hc1 : ((c.take 1 = " " || c.take 1 = "\t") && !(es ++ [x]).isEmpty) = true := by
      rcases hcont c (List.mem_cons_self c cs) with h | h <;> simp [h]
    simp only [List.cons_append, readAux, hc1, if_true, updateLast_append_one,
      List.foldl_cons]
    exact ih (fun d hd => hcont d (List.mem_cons_of_mem c hd)) (x.append c)

/-- The merged message is the head entry's message newline-joined with the
rstripped continuation lines, in order. -/
theorem foldl_append_message (cs : List String) (e : LogEntry) :
    (cs.foldl LogEntry.append e).message =
      cs.foldl (fun m c => m ++ "\n" ++ pyRstrip c) e.message := by
  induction cs generalizing e with
  | nil => rfl
  | cons c cs ih => simp only [List.foldl_cons, ih, LogEntry.append]

/-- `readline` on a handle whose next line is not merged as a continuation
(either it does not start with space/tab, or the cache is empty) and parses
successfully: the entry is appended to the cache and returned. -/
theorem readline_parse_head (s : LFState) (g : String) (tl : List String)
    (e : LogEntry) (hfd : s.fd = some (g :: tl))
    (hcond : ((g.take 1 = " " || g.take 1 = "\t") && !s.entries.isEmpty) = false)
    (hparse : LogEntry.parse g s.mtimeYear = .ok e) :
    s.readline = ({ s with fd := some tl, entries := s.entries ++ [e] },
                  .ok (some e)) := by
  unfold LFState.readline
  rw [hfd]
  simp [readAux, hcond, hparse]

/-- `readline` when the next line is not merged as a continuation and fails
to parse: the handle advances past the line, the cache is unchanged, and the
`LogFileError` propagates. -/
theorem readline_parse_head_error (s : LFState) (g : String) (tl : List String)
    (m : String) (hfd : s.fd = some (g :: tl))
    (hcond : ((g.take 1 = " " || g.take 1 = "\t") && !s.entries.isEmpty) = false)
    (hparse : LogEntry.parse g s.mtimeYear = .error m) :
    s.readline = ({ s with fd := some tl }, .error m) := by
  unfold LFState.readline
  rw [hfd]
  simp [readAux, hcond, hparse]

/-! ### Claim C1 -/

/-- C1 (amended): for every LogFile whose loaded flag is set and every
registered cursor whose position is an integer `p` strictly less than the
number of cached entries, `next_iterator_match` with that name and no
predicate returns the cached entry at index `p` and increases that cursor's
position by exactly one, and the call parses no new line and appends nothing
to the cache (the state is unchanged except for that cursor).  When the
loaded flag is unset this fails: see the counterexample. -/
theorem C1_cached_advance (s : LFState) (name : String) (p : Nat)
    (hreg : iterLookup s.iterators name = some (some p))
    (hp : p < s.entries.length)
    (hl : s.loaded = true) :
    nextIteratorMatch s name =
      ({ s with iterators := iterSet s.iterators name (some (p + 1)) },
       .ok (s.entries[p])) :=
  nim_loaded_pos s name p hreg hl hp

/-- C1 witness: the theorem applied to a concrete loaded state. -/
theorem C1_witness :
    iterLookup stateW1.iterators "A" = some (some 0) ∧
    0 < stateW1.entries.length ∧ stateW1.loaded = true ∧
    (nextIteratorMatch stateW1 "A").2 = .ok (plainEntry "a") ∧
    iterLookup (nextIteratorMatch stateW1 "A").1.iterators "A" = some (some 1) := by
  have h := C1_cached_advance stateW1 "A" 0 (by decide) (by decide) (by decide)
  rw [h]
  exact ⟨by decide, by decide, by decide, by decide, by decide⟩

/-- C1 counterexample: in `stateC1` the cursor `A` sits at position 0 with
three cached entries and the file not yet loaded; `next_iterator_match`
returns the cached entry at index 0 but sets the cursor to 2 (the cache
length minus one), not to 1. -/
theorem C1_counterexample :
    iterLookup stateC1.iterators "A" = some (some 0) ∧
    stateC1.entries.length = 3 ∧
    (nextIteratorMatch stateC1 "A").2 = .ok (plainEntry "a") ∧
    iterLookup (nextIteratorMatch stateC1 "A").1.iterators "A" = some (some 2) := by
  decide

/-! ### Claim C2 -/

/-- C2 (amended): `reload` clears the cache and the loaded flag, then
immediately advances the default cursor once, re-opening the file and
re-parsing from its first line.  When the handle was open and the first disk
line parses to `e`, afterwards the cache holds exactly `[e]` (it is not
empty), the default cursor is at position 0 (not unset), and every other
registered cursor keeps its previous position. -/
theorem C2_reload (s : LFState) (cur : Option Nat) (l : String)
    (rest : List String) (e : LogEntry)
    (hreg : iterLookup s.iterators "default" = some cur)
    (hfd : s.fd ≠ none)
    (hpl : s.pathLines = l :: rest)
    (hparse : LogEntry.parse l s.pathYear = .ok e) :
    s.reload = (afterReload s rest e, .ok (some e)) ∧
    (afterReload s rest e).entries = [e] ∧
    iterLookup (afterReload s rest e).iterators "default" = some (some 0) ∧
    ∀ n, n ≠ "default" →
      iterLookup (afterReload s rest e).iterators n = iterLookup s.iterators n :=
  ⟨reload_head_ok s cur l rest e hreg hfd hpl hparse, rfl,
   iterLookup_iterSet_self hreg (some 0),
   fun n hn => iterLookup_iterSet_ne hn (some 0)⟩

/-- C2 witness: the theorem applied to the concrete state `stateC2`. -/
theorem C2_witness :
    iterLookup stateC2.iterators "default" = some (some 5) ∧
    stateC2.reload =
      (afterReload stateC2 [mkLine "m2"] (mkEntry "m1"), .ok (some (mkEntry "m1"))) :=
  ⟨by decide,
   (C2_reload stateC2 (some 5) (mkLine "m1") [mkLine "m2"] (mkEntry "m1")
     (by decide) (by decide) (by decide) (by decide)).1⟩

/-- C2 counterexample: after `reload` of `stateC2` the cache holds the first
re-parsed entry (it is not empty), the default cursor is at 0, and the
cursor `a` still holds its old position 7 — refuting that reload leaves the
cache empty and every cursor position unset. -/
theorem C2_counterexample :
    (stateC2.reload).1.entries = [mkEntry "m1"] ∧
    iterLookup (stateC2.reload).1.iterators "default" = some (some 0) ∧
    iterLookup (stateC2.reload).1.iterators "a" = some (some 7) := by
  decide

/-! ### Claim C7 -/

/-- C7: parsing the scenario-A line with reference year 2024 and the default
ordered source-pattern table yields time 2024-01-05T03:14:15, host `host1`,
program `sshd`, pid 1234 and message `Accepted password for root`, with no
version, facility or level populated. -/
theorem C7_scenario_A :
    LogEntry.parse "Jan  5 03:14:15 host1 sshd[1234]: Accepted password for root" 2024 =
      .ok { line := "Jan  5 03:14:15 host1 sshd[1234]: Accepted password for root",
            time := ⟨2024, 1, 5, 3, 14, 15⟩, source := some "host1 sshd[1234]",
            message := "Accepted password for root", host := some "host1",
            program := some "sshd", pid := some "1234", version := none,
            facility := none, level := none } := by
  decide

/-! ### Claim C9 -/

/-- C9: parse-failure policy by mode.  Tailing a live file: a line whose
formatting raises is skipped and the loop continues with the next available
line (`tailReadline` of the remaining lines).  Batch-parsing through the
File Iterator: a line that fails to parse surfaces the `LogFileError` to the
caller of `next_iterator_match` instead of being skipped. -/
theorem C9_parse_failure_policy :
    (∀ (year : Nat) (l : String) (rest : List String) (m : String),
       LogEntry.parse (pyRstrip l) year = .error m →
       tailReadline (fun x => LogEntry.parse x year) (l :: rest) =
         tailReadline (fun x => LogEntry.parse x year) rest) ∧
    (∀ (s : LFState) (name : String) (cur : Option Nat) (l : String)
       (rest : List String) (m : String),
       iterLookup s.iterators name = some cur → s.loaded = false →
       s.fd ≠ none → s.entries = [] → s.pathLines = l :: rest →
       LogEntry.parse l s.pathYear = .error m →
       (nextIteratorMatch s name).2 = .error (.err m)) := by
  constructor
  · intro year l rest m hm
    simp [tailReadline, hm]
  · intro s name cur l rest m hreg hnl hfd hent hpl hparse
    exact nim_notloaded_error_result s name cur hreg hnl hfd hent l rest hpl m hparse

/-- C9 witness: the unparseable `badLine` is skipped by the tail loop and
surfaced as an error by the iterator. -/
theorem C9_witness :
    tailReadline (fun x => LogEntry.parse x 2024) [badLine, mkLine "m1"] =
      tailReadline (fun x => LogEntry.parse x 2024) [mkLine "m1"] ∧
    (nextIteratorMatch stateC9 "default").2 =
      .error (.err ("Error parsing entry time from line: " ++ badLine)) := by
  have h := C9_parse_failure_policy
  exact ⟨h.1 2024 badLine [mkLine "m1"]
           ("Error parsing entry time from line: " ++ badLine) (by decide),
         h.2 stateC9 "default" none badLine []
           ("Error parsing entry time from line: " ++ badLine)
           (by decide) (by decide) (by decide) (by decide) (by decide) (by decide)⟩

/-! ### Claim C10 -/

/-- C10: the continuation merge applies only when the entry cache is
non-empty — when the very first line read begins with a space or tab, it is
not appended to any previous message but handed to the line parser as a new
entry, succeeding or failing like any other line. -/
theorem C10_first_line (s : LFState) (l : String) (rest : List String)
    (hent : s.entries = []) (hfd : s.fd = some (l :: rest))
    (hws : l.take 1 = " " ∨ l.take 1 = "\t") :
    (∀ e, LogEntry.parse l s.mtimeYear = .ok e →
       s.readline = ({ s with fd := some rest, entries := [e] }, .ok (some e))) ∧
    (∀ m, LogEntry.parse l s.mtimeYear = .error m →
       s.readline = ({ s with fd := some rest }, .error m)) := by
  have hcond : ((l.take 1 = " " || l.take 1 = "\t") && !s.entries.isEmpty) = false := by
    simp [hent]
  constructor
  · intro e hp
    have h := readline_parse_head s l rest e hfd hcond hp
    rw [h, hent]
    simp
  · intro m hp
    exact readline_parse_head_error s l rest m hfd hcond hp

/-- C10 witness: the whitespace-led `contLine`, read first, is parsed as a
fresh entry. -/
theorem C10_witness :
    stateC10.entries = [] ∧ contLine.take 1 = " " ∧
    stateC10.readline =
      ({ stateC10 with fd := some [], entries := [contEntry] }, .ok (some contEntry)) := by
  have h := (C10_first_line stateC10 contLine [] (by decide) (by decide)
    (Or.inl (by decide))).1 contEntry (by decide)
  exact ⟨by decide, by decide, h⟩

/-! ### Claim C8 -/

/-- C8 (amended): on a loaded file, performing `k` advance calls on cursor
`A` changes neither cursor `B`'s stored position nor the outcome the next
advance on `B` produces, for any two distinct cursor names (and hence
symmetrically).  When the file is not yet loaded this fails: see the
counterexample. -/
theorem C8_cursor_independence (s : LFState) (A B : String) (k : Nat)
    (hl : s.loaded = true) (hAB : B ≠ A) :
    iterLookup (advanceN A k s).iterators B = iterLookup s.iterators B ∧
    (nextIteratorMatch (advanceN A k s) B).2 = (nextIteratorMatch s B).2 := by
  induction k generalizing s with
  | zero => exact ⟨rfl, rfl⟩
  | succ k ih =>
    obtain ⟨hl1, he1, _, hm⟩ := nim_loaded_frame s A hl
    have step := ih (nextIteratorMatch s A).1 hl1
    refine ⟨step.1.trans (hm B hAB), step.2.trans ?_⟩
    exact nim_loaded_result_congr _ s B hl1 hl he1 (hm B hAB)

/-- C8 witness: two advances of `A` on a concrete loaded state leave `B`'s
position and next outcome unchanged. -/
theorem C8_witness :
    stateW1.loaded = true ∧
    iterLookup (advanceN "A" 2 stateW1).iterators "B" = iterLookup stateW1.iterators "B" ∧
    (nextIteratorMatch (advanceN "A" 2 stateW1) "B").2 = (nextIteratorMatch stateW1 "B").2 := by
  have h := C8_cursor_independence stateW1 "A" "B" 2 (by decide) (by decide)
  exact ⟨by decide, h.1, h.2⟩

/-- C8 counterexample: in the not-yet-loaded `stateC8`, one advance of `A`
leaves `B`'s stored position untouched but changes the entry the next
advance on `B` returns (from the freshly parsed first line to the stale
cached entry), refuting the claim at `k = 1`. -/
theorem C8_counterexample :
    iterLookup (nextIteratorMatch stateC8 "A").1.iterators "B" =
      iterLookup stateC8.iterators "B" ∧
    (nextIteratorMatch stateC8 "B").2 = .ok (mkEntry "m1") ∧
    (nextIteratorMatch (nextIteratorMatch stateC8 "A").1 "B").2 =
      .ok (plainEntry "X") ∧
    (mkEntry "m1" : LogEntry) ≠ plainEntry "X" := by
  decide

/-! ### Claim C6 -/

/-- C6: a parseable non-continuation line followed by `N` lines that each
begin with a space or tab, with the line after the group (if any) not
whitespace-led, produces one entry for the whole group: the first `readline`
returns the parsed head entry; the following `readline` absorbs all `N`
continuation lines into that entry — its message becomes the head message
newline-joined with the rstripped continuation lines in file order — and no
continuation line becomes an entry of its own (at most one further entry,
parsed from the line after the group, is added). -/
theorem C6_continuation_merge (s : LFState) (g : String) (cs rest : List String)
    (e : LogEntry)
    (hfd : s.fd = some (g :: (cs ++ rest)))
    (hg : ¬(g.take 1 = " " ∨ g.take 1 = "\t"))
    (hparse : LogEntry.parse g s.mtimeYear = .ok e)
    (hcont : ∀ c ∈ cs, c.take 1 = " " ∨ c.take 1 = "\t")
    (hrest : ∀ r rs, rest = r :: rs → ¬(r.take 1 = " " ∨ r.take 1 = "\t")) :
    (s.readline).2 = .ok (some e) ∧
    (s.readline).1.entries = s.entries ++ [e] ∧
    ((s.readline).1.readline).1.entries.take (s.entries.length + 1) =
      s.entries ++ [cs.foldl LogEntry.append e] ∧
    ((s.readline).1.readline).1.entries.length ≤ s.entries.length + 2 ∧
    (cs.foldl LogEntry.append e).message =
      cs.foldl (fun m c => m ++ "\n" ++ pyRstrip c) e.message := by
  obtain ⟨h1, h2⟩ := not_or.mp hg
  have hcond : ((g.take 1 = " " || g.take 1 = "\t") && !s.entries.isEmpty) = false := by
    simp [h1, h2]
  rw [readline_parse_head s g (cs ++ rest) e hfd hcond hparse]
  have key : ∃ extra : List LogEntry, extra.length ≤ 1 ∧
      (({ s with fd := some (cs ++ rest),
                 entries := s.entries ++ [e] } : LFState).readline).1.entries =
        (s.entries ++ [cs.foldl LogEntry.append e]) ++ extra := by
    simp only [LFState.readline]
    rw [readAux_cont_run s.mtimeYear cs hcont rest s.entries e]
    cases rest with
    | nil =>
      exact ⟨[], by simp, by simp [readAux]⟩
    | cons r rs =>
      obtain ⟨hr1, hr2⟩ := not_or.mp (hrest r rs rfl)
      have hcr : ((r.take 1 = " " || r.take 1 = "\t") &&
          !(s.entries ++ [cs.foldl LogEntry.append e]).isEmpty) = false := by
        simp [hr1, hr2]
      rcases hpr : LogEntry.parse r s.mtimeYear with m2 | e2
      · exact ⟨[], by simp, by simp [readAux, hcr, hpr]⟩
      · exact ⟨[e2], by simp, by simp [readAux, hcr, hpr]⟩
  obtain ⟨extra, hex, hent⟩ := key
  refine ⟨rfl, rfl, ?_, ?_, foldl_append_message cs e⟩
  · rw [hent]
    exact List.take_left' (by simp)
  · rw [hent]
    simp
    omega

/-- C6 witness: a head line followed by two continuation lines and a second
entry line; after the group is consumed the head entry's message carries
both continuations. -/
theorem C6_witness :
    (stateC6.readline).2 = .ok (some (mkEntry "m1")) ∧
    ((stateC6.readline).1.readline).1.entries.take 1 =
      [[" cont1", "\tcont2"].foldl LogEntry.append (mkEntry "m1")] ∧
    ([" cont1", "\tcont2"].foldl LogEntry.append (mkEntry "m1")).message =
      "m1" ++ "\n" ++ " cont1" ++ "\n" ++ "\tcont2" := by
  have h := C6_continuation_merge stateC6 (mkLine "m1") [" cont1", "\tcont2"]
    [mkLine "m2"] (mkEntry "m1") (by decide) (by decide) (by decide)
    (by decide) (by intro r rs hr; cases hr; decide)
  refine ⟨h.1, ?_, by decide⟩
  have h3 := h.2.2.1
  simpa using h3

/-! ### Helper lemmas: collection iteration over loaded members -/

/-- Uniform description of an advance on a loaded file: a cursor stored as
`none` behaves exactly like position 0. -/
theorem nim_loaded_cases (s : LFState) (name : String) (v : Option Nat)
    (hl : s.loaded = true) (hreg : iterLookup s.iterators name = some v) :
    (∀ hp : v.getD 0 < s.entries.length,
      nextIteratorMatch s name =
        ({ s with iterators := iterSet s.iterators name (some (v.getD 0 + 1)) },
         .ok (s.entries[v.getD 0]))) ∧
    (s.entries.length ≤ v.getD 0 →
      nextIteratorMatch s name =
        ({ s with iterators := iterSet s.iterators name none }, .error .stop)) := by
  cases v with
  | none =>
    constructor
    · intro hp
      have hne : s.entries ≠ [] := by
        intro hh
        rw [hh] at hp
        exact Nat.not_lt_zero _ hp
      exact nim_loaded_unset s name hreg hl hne
    · intro hp
      have he : s.entries = [] := by
        simpa using List.length_eq_zero.mp (Nat.le_zero.mp hp)
      exact nim_loaded_unset_empty s name hreg hl he
  | some p =>
    exact ⟨fun hp => nim_loaded_pos s name p hreg hl hp,
           fun hp => nim_loaded_stop s name p hreg hl hp⟩

/-- Draining the comprehension over a loaded file yields the filtered
suffix of the cache from the default cursor's position onward and resets
that cursor. -/
theorem lfDrainFilter_loaded (pred : LogEntry → Bool) :
    ∀ (fuel : Nat) (s : LFState) (v : Option Nat),
    s.loaded = true →
    iterLookup s.iterators "default" = some v →
    v.getD 0 ≤ s.entries.length →
    s.entries.length - v.getD 0 + 1 ≤ fuel →
    lfDrainFilter pred fuel s =
      ({ s with iterators := iterSet s.iterators "default" none },
       .ok ((s.entries.drop (v.getD 0)).filter pred)) := by
  intro fuel
  induction fuel with
  | zero =>
    intro s v _ _ _ hf
    omega
  | succ n ih =>
    intro s v hl hreg hp hf
    by_cases hlt : v.getD 0 < s.entries.length
    · have hstep := (nim_loaded_cases s "default" v hl hreg).1 hlt
      have ihs := ih
        { s with iterators := iterSet s.iterators "default" (some (v.getD 0 + 1)) }
        (some (v.getD 0 + 1)) hl (iterLookup_iterSet_self hreg _)
        (by simpa using hlt) (by simp only [Option.getD_some]; omega)
      simp only [lfDrainFilter, hstep, ihs, iterSet_iterSet_same]
      rw [List.drop_eq_getElem_cons hlt, List.filter_cons]
      by_cases hpe : pred (s.entries[v.getD 0]) <;> simp [hpe]
    · have hstop := (nim_loaded_cases s "default" v hl hreg).2 (Nat.le_of_not_lt hlt)
      simp only [lfDrainFilter, hstop]
      rw [List.drop_eq_nil_of_le (Nat.le_of_not_lt hlt)]
      simp

/-- Draining the comprehension over a not-yet-loaded file whose default
cursor sits at the last cached index and whose first disk line parses never
finishes: every advance re-opens the file, re-reads the first line and
appends a duplicate, restoring the same configuration. -/
theorem lfDrainFilter_diverges (pred : LogEntry → Bool) :
    ∀ (fuel : Nat) (s : LFState) (l : String) (rest : List String) (e : LogEntry),
    s.loaded = false →
    s.fd ≠ none →
    s.pathLines = l :: rest →
    ¬(l.take 1 = " " ∨ l.take 1 = "\t") →
    LogEntry.parse l s.pathYear = .ok e →
    iterLookup s.iterators "default" = some (some (s.entries.length - 1)) →
    s.entries ≠ [] →
    (lfDrainFilter pred fuel s).2 = .error "out of fuel" := by
  intro fuel
  induction fuel with
  | zero =>
    intro s l rest e _ _ _ _ _ _ _
    rfl
  | succ n ih =>
    intro s l rest e hnl hfd hpl hws hparse hcur hne
    obtain ⟨hw1, hw2⟩ := not_or.mp hws
    have hcond : ((l.take 1 = " " || l.take 1 = "\t") && !s.entries.isEmpty) = false := by
      simp [hw1, hw2]
    have hple : ¬ s.entries.length - 1 < s.entries.length - 1 := by omega
    have hstep := nim_notloaded_append s "default" (s.entries.length - 1) hcur hnl
      hfd hple l rest hpl hcond e hparse
    have hrec := ih
      ({ s with fd := some rest, mtimeYear := s.pathYear,
                entries := s.entries ++ [e],
                iterators := iterSet s.iterators "default"
                  (some ((s.entries ++ [e]).length - 1)) })
      l rest e hnl (by simp) hpl hws hparse
      (iterLookup_iterSet_self hcur _) (by simp)
    simp only [lfDrainFilter, hstep]
    rcases hd2 : lfDrainFilter pred n
      ({ s with fd := some rest, mtimeYear := s.pathYear,
                entries := s.entries ++ [e],
                iterators := iterSet s.iterators "default"
                  (some ((s.entries ++ [e]).length - 1)) }) with ⟨s2, r2⟩
    rw [hd2] at hrec
    cases r2 with
    | error m =>
      simp at hrec
      simp [hrec]
    | ok es =>
      exact absurd hrec (by simp)

/-- Two collection states with the same `collNext` behaviour drain alike. -/
theorem collDrain_congr_step (n : Nat) (c c2 : LFCState)
    (h : collNext c = collNext c2) :
    collDrain (n + 1) c = collDrain (n + 1) c2 := by
  simp only [collDrain, h]

/-- Starting an iteration of a nonempty collection is the same as resuming
it at index 0. -/
theorem collNext_none_eq_zero (lfs : List LFState) (h : lfs ≠ []) :
    collNext ⟨lfs, none⟩ = collNext ⟨lfs, some 0⟩ := by
  simp [collNext, h]

/-- Walking a collection of loaded members from index `i` with the current
default cursor at `v` yields the remaining entries of member `i` followed by
all entries of the later members (each of which must be nonempty), ending
with the ordinary stop signal. -/
theorem collDrain_loaded_walk (fuel : Nat) :
    ∀ (lfs : List LFState) (i : Nat) (v : Option Nat) (hi : i < lfs.length),
    (∀ j (hj : j < lfs.length), (lfs[j]).loaded = true) →
    iterLookup (lfs[i]).iterators "default" = some v →
    v.getD 0 ≤ (lfs[i]).entries.length →
    (∀ j (hj : j < lfs.length), i < j →
      iterLookup (lfs[j]).iterators "default" = some none ∧ (lfs[j]).entries ≠ []) →
    (lfs[i]).entries.length - v.getD 0 +
      ((lfs.drop (i + 1)).map (fun lf => lf.entries.length + 1)).sum + 1 ≤ fuel →
    collDrain fuel ⟨lfs, some i⟩ =
      ((lfs[i]).entries.drop (v.getD 0) ++
        ((lfs.drop (i + 1)).map (·.entries)).flatten, .ok ()) := by
  induction fuel with
  | zero =>
    intro lfs i v hi hload hcur hp hafter hfuel
    omega
  | succ n ih =>
    intro lfs i v hi hload hcur hp hafter hfuel
    have hne : lfs.isEmpty = false := by
      cases lfs with
      | nil => exact absurd hi (by simp)
      | cons a l => rfl
    by_cases hlt : v.getD 0 < (lfs[i]).entries.length
    · -- member i still has entries: yield one, recurse on the same member
      have hstep := (nim_loaded_cases (lfs[i]) "default" v (hload i hi) hcur).1 hlt
      have hcoll : collNext ⟨lfs, some i⟩ =
          (⟨lfs.set i { lfs[i] with
              iterators := iterSet (lfs[i]).iterators "default" (some (v.getD 0 + 1)) },
            some i⟩, .ok ((lfs[i]).entries[v.getD 0])) := by
        simp only [collNext, hne, Bool.false_eq_true, if_false, Option.getD_some,
          Option.some_ne_none, List.getElem?_eq_getElem hi, reduceIte]
        rw [hstep]
      have hlen2 : i < (lfs.set i { lfs[i] with
          iterators := iterSet (lfs[i]).iterators "default" (some (v.getD 0 + 1)) }).length := by
        simpa using hi
      have hget : (lfs.set i { lfs[i] with
          iterators := iterSet (lfs[i]).iterators "default" (some (v.getD 0 + 1)) })[i] =
          { lfs[i] with
            iterators := iterSet (lfs[i]).iterators "default" (some (v.getD 0 + 1)) } :=
        List.getElem_set_self hlen2
      have hdropset : (lfs.set i { lfs[i] with
          iterators := iterSet (lfs[i]).iterators "default" (some (v.getD 0 + 1)) }).drop (i + 1) =
          lfs.drop (i + 1) :=
        List.drop_set_of_lt _ _ (Nat.lt_succ_self i)
      have hrec := ih (lfs.set i { lfs[i] with
          iterators := iterSet (lfs[i]).iterators "default" (some (v.getD 0 + 1)) }) i
        (some (v.getD 0 + 1)) hlen2
        (by
          intro j hj
          by_cases hij : i = j
          · subst hij
            simp only [hget]
            exact hload i hi
          · rw [List.getElem_set_ne hij]
            exact hload j (by simpa using hj))
        (by
          simp only [hget]
          exact iterLookup_iterSet_self hcur (some (v.getD 0 + 1)))
        (by
          simp only [hget, Option.getD_some]
          exact hlt)
        (by
          intro j hj hij
          rw [List.getElem_set_ne (Nat.ne_of_lt hij)]
          exact hafter j (by simpa using hj) hij)
        (by
          simp only [hget, hdropset, Option.getD_some]
          omega)
      simp only [hget, hdropset, Option.getD_some] at hrec
      simp only [collDrain, hcoll, hrec]
      rw [List.drop_eq_getElem_cons hlt, List.cons_append]
    · -- member i exhausted: reset its cursor, move to the next member
      have hstop := (nim_loaded_cases (lfs[i]) "default" v (hload i hi) hcur).2
        (Nat.le_of_not_lt hlt)
      have hdrop_i : (lfs[i]).entries.drop (v.getD 0) = [] :=
        List.drop_eq_nil_of_le (Nat.le_of_not_lt hlt)
      by_cases hlast : i < lfs.length - 1
      · -- a later member exists; it is nonempty and yields its first entry
        have hi1 : i + 1 < lfs.length := by omega
        obtain ⟨hcur1, hne1⟩ := hafter (i + 1) hi1 (Nat.lt_succ_self i)
        have hlen1 : 0 < (lfs[i + 1]).entries.length := List.length_pos.mpr hne1
        have hstep1 := (nim_loaded_cases (lfs[i + 1]) "default" none
          (hload (i + 1) hi1) hcur1).1 (by simpa using hlen1)
        simp only [Option.getD_none] at hstep1
        have hi1A : i + 1 < (lfs.set i { lfs[i] with
            iterators := iterSet (lfs[i]).iterators "default" none }).length := by
          simpa using hi1
        have hgetA : (lfs.set i { lfs[i] with
            iterators := iterSet (lfs[i]).iterators "default" none })[i + 1] =
            lfs[i + 1] :=
          List.getElem_set_ne (by omega) hi1A
        have hcoll : collNext ⟨lfs, some i⟩ =
            (⟨(lfs.set i { lfs[i] with
                iterators := iterSet (lfs[i]).iterators "default" none }).set (i + 1)
                { lfs[i + 1] with
                  iterators := iterSet (lfs[i + 1]).iterators "default" (some 1) },
              some (i + 1)⟩, .ok ((lfs[i + 1]).entries[0])) := by
          simp only [collNext, hne, Bool.false_eq_true, if_false, Option.getD_some,
            Option.some_ne_none, List.getElem?_eq_getElem hi, reduceIte]
          rw [hstop]
          simp only [List.length_set, if_pos hlast, List.getElem?_eq_getElem hi1A,
            hgetA, hstep1]
        have hiB : i + 1 < ((lfs.set i { lfs[i] with
                iterators := iterSet (lfs[i]).iterators "default" none }).set (i + 1)
                { lfs[i + 1] with
                  iterators := iterSet (lfs[i + 1]).iterators "default" (some 1) }).length := by
          simpa using hi1
        have hgetB : ((lfs.set i { lfs[i] with
                iterators := iterSet (lfs[i]).iterators "default" none }).set (i + 1)
                { lfs[i + 1] with
                  iterators := iterSet (lfs[i + 1]).iterators "default" (some 1) })[i + 1] = { lfs[i + 1] with
                  iterators := iterSet (lfs[i + 1]).iterators "default" (some 1) } :=
          List.getElem_set_self hiB
        have hdropB : ((lfs.set i { lfs[i] with
                iterators := iterSet (lfs[i]).iterators "default" none }).set (i + 1)
                { lfs[i + 1] with
                  iterators := iterSet (lfs[i + 1]).iterators "default" (some 1) }).drop (i + 2) = lfs.drop (i + 2) := by
          rw [List.drop_set_of_lt _ _ (by omega), List.drop_set_of_lt _ _ (by omega)]
        have hsum : ((lfs.drop (i + 1)).map (fun lf => lf.entries.length + 1)).sum =
            (lfs[i + 1]).entries.length + 1 +
              ((lfs.drop (i + 2)).map (fun lf => lf.entries.length + 1)).sum := by
          rw [List.drop_eq_getElem_cons hi1]
          simp only [List.map_cons, List.sum_cons]
        have hrec := ih ((lfs.set i { lfs[i] with
                iterators := iterSet (lfs[i]).iterators "default" none }).set (i + 1)
                { lfs[i + 1] with
                  iterators := iterSet (lfs[i + 1]).iterators "default" (some 1) }) (i + 1) (some 1) hiB
          (by
            intro j hj
            by_cases hj1 : i + 1 = j
            · subst hj1
              simp only [hgetB]
              exact hload (i + 1) hi1
            · rw [List.getElem_set_ne hj1]
              by_cases hji : i = j
              · subst hji
                rw [List.getElem_set_self (by simpa using hi)]
                exact hload i hi
              · rw [List.getElem_set_ne hji]
                exact hload j (by simpa using hj))
          (by
            simp only [hgetB]
            exact iterLookup_iterSet_self hcur1 (some 1))
          (by
            simp only [hgetB, Option.getD_some]
            exact hlen1)
          (by
            intro j hj hij
            rw [List.getElem_set_ne (by omega), List.getElem_set_ne (by omega)]
            exact hafter j (by simpa using hj) (by omega))
          (by
            simp only [hgetB, hdropB, Option.getD_some]
            omega)
        simp only [hgetB, hdropB, Option.getD_some] at hrec
        have hsplit : (lfs[i + 1]).entries[0] :: (lfs[i + 1]).entries.drop 1 =
            (lfs[i + 1]).entries :=
          (List.getElem_cons_drop (lfs[i + 1]).entries 0 hlen1).trans
            (List.drop_zero (lfs[i + 1]).entries)
        simp only [collDrain, hcoll, hrec, hdrop_i, List.nil_append]
        rw [List.drop_eq_getElem_cons hi1]
        simp only [List.map_cons, List.flatten_cons]
        rw [← List.cons_append, hsplit]
      · -- member i was the last member: the ordinary stop signal
        have hcoll : collNext ⟨lfs, some i⟩ =
            (⟨lfs.set i { lfs[i] with
                iterators := iterSet (lfs[i]).iterators "default" none }, none⟩,
             .error .stop) := by
          simp only [collNext, hne, Bool.false_eq_true, if_false, Option.getD_some,
            Option.some_ne_none, List.getElem?_eq_getElem hi, reduceIte]
          rw [hstop]
          simp only [List.length_set, if_neg hlast]
        have hdropnil : lfs.drop (i + 1) = [] :=
          List.drop_eq_nil_of_le (by omega)
        simp only [collDrain, hcoll, hdrop_i, hdropnil]
        simp

/-! ### Helper lemmas: collection construction order -/

theorem flatMap_filter_perm (key : String → Int) :
    ∀ (kys : List Int) (L : List String), kys.Nodup →
    (∀ p ∈ L, key p ∈ kys) →
    (kys.flatMap (fun ts => L.filter (fun p => key p = ts))).Perm L := by
  intro kys
  induction kys with
  | nil =>
    intro L _ hcov
    have hL : L = [] :=
      List.eq_nil_iff_forall_not_mem.mpr (fun p hp => by simpa using hcov p hp)
    simp [hL]
  | cons k kys ih =>
    intro L hnd hcov
    obtain ⟨hk, hnd2⟩ := List.nodup_cons.mp hnd
    rw [List.flatMap_cons]
    have hstep : kys.flatMap (fun ts => L.filter (fun p => key p = ts)) =
        kys.flatMap (fun ts =>
          (L.filter (fun p => !(decide (key p = k)))).filter (fun p => key p = ts)) := by
      apply List.flatMap_congr
      intro ts hts
      rw [List.filter_filter]
      apply List.filter_congr
      intro p _
      have hts_ne : ¬ ts = k := fun hh => hk (hh ▸ hts)
      by_cases hpk : key p = ts
      · have hne : ¬ (key p = k) := by
          rw [hpk]
          exact hts_ne
        simp only [hpk, hne, decide_True, Bool.true_and, decide_eq_true_eq]
        simp [hts_ne]
      · simp [hpk]
    rw [hstep]
    have ihL := ih (L.filter (fun p => !(decide (key p = k)))) hnd2 (fun p hp => by
      obtain ⟨hpL, hpk⟩ := List.mem_filter.mp hp
      have hmem := hcov p hpL
      rcases List.mem_cons.mp hmem with h | h
      · exact absurd h (by simpa using hpk)
      · exact h)
    refine (List.Perm.append_left _ ihL).trans ?_
    simpa using List.filter_append_perm (fun p => decide (key p = k)) L

theorem flatMap_sort_perm (stat : String → ℚ) (kys : List Int) (L : List String) :
    (kys.flatMap (fun ts =>
        List.insertionSort (· ≤ ·) (L.filter (fun p => truncMtime (stat p) = ts)))).Perm
      (kys.flatMap (fun ts => L.filter (fun p => truncMtime (stat p) = ts))) := by
  induction kys with
  | nil => rfl
  | cons k kys ih =>
    rw [List.flatMap_cons, List.flatMap_cons]
    exact List.Perm.append (List.perm_insertionSort _ _) ih

theorem sortGroups_sorted (stat : String → ℚ) (kys : List Int) (L : List String)
    (hs : kys.Sorted (· < ·)) :
    List.Sorted (lexLe stat)
      (kys.flatMap (fun ts =>
        List.insertionSort (· ≤ ·) (L.filter (fun p => truncMtime (stat p) = ts)))) := by
  induction kys with
  | nil => simp [List.Sorted]
  | cons k kys ih =>
    obtain ⟨hklt, htl⟩ := List.pairwise_cons.mp hs
    rw [List.flatMap_cons]
    apply List.pairwise_append.mpr
    refine ⟨?_, ih htl, ?_⟩
    · -- within a tied group: equal keys, lexicographic path order
      have hsorted : List.Sorted (· ≤ ·)
          (List.insertionSort (· ≤ ·) (L.filter (fun p => truncMtime (stat p) = k))) :=
        List.sorted_insertionSort _ _
      refine hsorted.imp_of_mem ?_
      intro a b ha hb hab
      have hka : truncMtime (stat a) = k := by
        have := (List.mem_filter.mp
          ((List.perm_insertionSort _ _).mem_iff.mp ha)).2
        simpa using this
      have hkb : truncMtime (stat b) = k := by
        have := (List.mem_filter.mp
          ((List.perm_insertionSort _ _).mem_iff.mp hb)).2
        simpa using this
      exact Or.inr ⟨hka.trans hkb.symm, hab⟩
    · -- across groups: strictly increasing keys
      intro a ha b hb
      have hka : truncMtime (stat a) = k := by
        have := (List.mem_filter.mp
          ((List.perm_insertionSort _ _).mem_iff.mp ha)).2
        simpa using this
      obtain ⟨ts, hts, hbts⟩ := List.mem_flatMap.mp hb
      have hkb : truncMtime (stat b) = ts := by
        have := (List.mem_filter.mp
          ((List.perm_insertionSort _ _).mem_iff.mp hbts)).2
        simpa using this
      exact Or.inl (by rw [hka, hkb]; exact hklt ts hts)

theorem lfcOrder_eq (stat : String → ℚ) (paths : List String) :
    lfcOrder stat paths =
      (List.insertionSort (· ≤ ·)
          ((paths.map (fun p => truncMtime (stat p))).dedup)).flatMap
        (fun ts =>
          List.insertionSort (· ≤ ·)
            (paths.filter (fun p => truncMtime (stat p) = ts))) := rfl

theorem sortKeys_nodup (stat : String → ℚ) (paths : List String) :
    (List.insertionSort (· ≤ ·)
      ((paths.map (fun p => truncMtime (stat p))).dedup)).Nodup :=
  ((List.perm_insertionSort _ _).nodup_iff).mpr (List.nodup_dedup _)

theorem lfcOrder_perm (stat : String → ℚ) (paths : List String) :
    (lfcOrder stat paths).Perm paths := by
  rw [lfcOrder_eq]
  refine (flatMap_sort_perm stat _ _).trans ?_
  refine flatMap_filter_perm (fun p => truncMtime (stat p)) _ _
    (sortKeys_nodup stat paths) ?_
  intro p hp
  exact ((List.perm_insertionSort _ _).mem_iff).mpr
    (List.mem_dedup.mpr (List.mem_map_of_mem _ hp))

theorem lfcOrder_sorted (stat : String → ℚ) (paths : List String) :
    (lfcOrder stat paths).Sorted (lexLe stat) := by
  rw [lfcOrder_eq]
  exact sortGroups_sorted stat _ _
    (List.Sorted.lt_of_le (List.sorted_insertionSort _ _) (sortKeys_nodup stat paths))

theorem lfcOrder_perm_invariant (stat : String → ℚ) (paths paths2 : List String)
    (h : paths.Perm paths2) : lfcOrder stat paths = lfcOrder stat paths2 := by
  rw [lfcOrder_eq, lfcOrder_eq]
  have hkeys : List.insertionSort (· ≤ ·)
        ((paths.map (fun p => truncMtime (stat p))).dedup) =
      List.insertionSort (· ≤ ·)
        ((paths2.map (fun p => truncMtime (stat p))).dedup) := by
    refine List.eq_of_perm_of_sorted ?_ (List.sorted_insertionSort _ _)
      (List.sorted_insertionSort _ _)
    exact (List.perm_insertionSort _ _).trans
      (((h.map _).dedup).trans (List.perm_insertionSort _ _).symm)
  have hgrp : ∀ ts, List.insertionSort (· ≤ ·)
        (paths.filter (fun p => truncMtime (stat p) = ts)) =
      List.insertionSort (· ≤ ·)
        (paths2.filter (fun p => truncMtime (stat p) = ts)) := by
    intro ts
    refine List.eq_of_perm_of_sorted ?_ (List.sorted_insertionSort _ _)
      (List.sorted_insertionSort _ _)
    exact (List.perm_insertionSort _ _).trans
      ((h.filter _).trans (List.perm_insertionSort _ _).symm)
  rw [hkeys]
  exact List.flatMap_congr (fun ts _ => hgrp ts)

/-! ### Claim C4 -/

/-- C4: the File Collection constructor's file order is a permutation of the
input paths, sorted ascending by modification time truncated to whole
seconds with ties broken by lexicographic path order, and it is the same
list for every input ordering of the path set. -/
theorem C4_collection_order (stat : String → ℚ) (paths : List String) :
    (lfcOrder stat paths).Perm paths ∧
    (lfcOrder stat paths).Sorted (lexLe stat) ∧
    ∀ paths2, paths.Perm paths2 → lfcOrder stat paths = lfcOrder stat paths2 :=
  ⟨lfcOrder_perm stat paths, lfcOrder_sorted stat paths,
   fun paths2 h => lfcOrder_perm_invariant stat paths paths2 h⟩

/-- C4 witness: three concrete files with distinct modification times; the
order is ascending by truncated mtime and survives permuting the input. -/
theorem C4_witness :
    lfcOrder statW ["app.log", "app.log.1", "app.log.2"] =
      ["app.log.2", "app.log.1", "app.log"] ∧
    (["app.log", "app.log.1", "app.log.2"] : List String).Perm
      ["app.log.2", "app.log", "app.log.1"] ∧
    lfcOrder statW ["app.log", "app.log.1", "app.log.2"] =
      lfcOrder statW ["app.log.2", "app.log", "app.log.1"] := by
  have h := C4_collection_order statW ["app.log", "app.log.1", "app.log.2"]
  exact ⟨by decide, by decide, h.2.2 ["app.log.2", "app.log", "app.log.1"] (by decide)⟩

/-! ### Claim C5 -/

/-- C5 (amended): for a File Collection whose member File Iterators are all
loaded with their default cursors unset, and in which every member after
the first yields at least one entry, repeatedly calling `next` yields
exactly the concatenation of each member's entry sequence in the
collection's file order, and after the last member is exhausted it signals
the ordinary StopIteration rather than an error.  The scoping is forced by
the code: a member whose default cursor sits mid-cache contributes only its
suffix, a not-yet-loaded member has no open handle and raises
`LogFileError`, and a member other than the first that yields no entries
stops the iteration at that point, skipping all later files (see the
counterexample). -/
theorem C5_collection_iteration (lfs : List LFState)
    (hload : ∀ lf ∈ lfs, lf.loaded = true ∧
      iterLookup lf.iterators "default" = some none)
    (htail : ∀ lf ∈ lfs.tail, lf.entries ≠ [])
    (fuel : Nat)
    (hfuel : (lfs.map (fun lf => lf.entries.length + 1)).sum + 1 ≤ fuel) :
    collDrain fuel ⟨lfs, none⟩ = ((lfs.map (·.entries)).flatten, .ok ()) := by
  cases lfs with
  | nil =>
    cases fuel with
    | zero => omega
    | succ n => simp [collDrain, collNext]
  | cons lf0 rest =>
    cases fuel with
    | zero => omega
    | succ n =>
      have hwalk := collDrain_loaded_walk (n + 1) (lf0 :: rest) 0 none (by simp)
        (fun j hj => (hload _ (List.getElem_mem hj)).1)
        ((hload lf0 (List.mem_cons_self lf0 rest)).2)
        (by simp)
        (fun j hj hij => by
          cases j with
          | zero => omega
          | succ jj =>
            have hjj : jj < rest.length := by simpa using hj
            have hmem : (lf0 :: rest)[jj + 1] ∈ rest := by
              simpa using List.getElem_mem hjj
            exact ⟨(hload _ (List.mem_cons_of_mem lf0 hmem)).2, htail _ hmem⟩)
        (by
          have : ((lf0 :: rest).map (fun lf => lf.entries.length + 1)).sum =
              lf0.entries.length + 1 +
                ((rest.map (fun lf => lf.entries.length + 1))).sum := by
            simp
          simp only [List.getElem_cons_zero, List.drop_succ_cons, List.drop_zero,
            Option.getD_none]
          omega)
      rw [collDrain_congr_step n ⟨lf0 :: rest, none⟩ ⟨lf0 :: rest, some 0⟩
        (collNext_none_eq_zero (lf0 :: rest) (by simp))]
      rw [hwalk]
      simp

/-- C5 witness: a two-member collection with nonempty members drains to the
concatenation of the caches, then stops normally. -/
theorem C5_witness :
    collDrain 6 ⟨[loadedLF [plainEntry "1", plainEntry "2"],
                  loadedLF [plainEntry "3"]], none⟩ =
      ([plainEntry "1", plainEntry "2", plainEntry "3"], .ok ()) := by
  have h := C5_collection_iteration
    [loadedLF [plainEntry "1", plainEntry "2"], loadedLF [plainEntry "3"]]
    (by decide) (by decide) 6 (by decide)
  rw [h]
  decide

/-- C5 counterexample: in `collC5` the middle member yields no entries; the
collection stops after the first member's single entry, never reaching the
third member's entry — refuting that iterators yielding no entries are
passed over. -/
theorem C5_counterexample :
    ((collC5.logfiles.map (·.entries)).flatten = [plainEntry "1", plainEntry "3"]) ∧
    collDrain 10 collC5 = ([plainEntry "1"], .ok ()) := by
  decide

/-! ### Claim C3 -/

/-- C3 (amended): the bulk filters iterate `self` through the default
cursor rather than scanning the cache.  On a loaded file with a non-empty
cache, each bulk filter (filter_host, filter_program, filter_message)
returns exactly the entries satisfying the filter from the default cursor's
current position (the whole cache only when that cursor is unset) to the
end of the cache, and resets the default cursor to unset, leaving
everything else — including every other cursor — unchanged; the entries
before the cursor are not scanned.  On an empty cache the filter first
calls `reload`, and when the file's first disk line parses the subsequent
comprehension never terminates — every advance re-opens the file, re-reads
the first line and appends a duplicate — formalised as: for every iteration
bound the drain is still unfinished. -/
theorem C3_bulk_filters :
    (∀ (s : LFState) (v : Option Nat) (h p : String) (mm : String → Bool)
       (fuel : Nat),
       s.loaded = true → s.entries ≠ [] →
       iterLookup s.iterators "default" = some v →
       v.getD 0 ≤ s.entries.length →
       s.entries.length - v.getD 0 + 1 ≤ fuel →
       s.filter_host h fuel =
         ({ s with iterators := iterSet s.iterators "default" none },
          .ok ((s.entries.drop (v.getD 0)).filter (fun e => e.host = some h))) ∧
       s.filter_program p fuel =
         ({ s with iterators := iterSet s.iterators "default" none },
          .ok ((s.entries.drop (v.getD 0)).filter (fun e => e.program = some p))) ∧
       s.filter_message mm fuel =
         ({ s with iterators := iterSet s.iterators "default" none },
          .ok ((s.entries.drop (v.getD 0)).filter (fun e => mm e.message)))) ∧
    (∀ (s : LFState) (cur : Option Nat) (l : String) (rest : List String)
       (e : LogEntry) (h p : String) (mm : String → Bool) (fuel : Nat),
       s.entries = [] →
       iterLookup s.iterators "default" = some cur →
       s.fd ≠ none →
       s.pathLines = l :: rest →
       ¬(l.take 1 = " " ∨ l.take 1 = "\t") →
       LogEntry.parse l s.pathYear = .ok e →
       (s.filter_host h fuel).2 = .error "out of fuel" ∧
       (s.filter_program p fuel).2 = .error "out of fuel" ∧
       (s.filter_message mm fuel).2 = .error "out of fuel") := by
  constructor
  · intro s v h p mm fuel hl hne hreg hp hfuel
    have hlen : ¬ s.entries.length = 0 := by
      simpa [List.length_eq_zero] using hne
    refine ⟨?_, ?_, ?_⟩
    · simp only [LFState.filter_host, if_neg hlen]
      exact lfDrainFilter_loaded _ fuel s v hl hreg hp hfuel
    · simp only [LFState.filter_program, if_neg hlen]
      exact lfDrainFilter_loaded _ fuel s v hl hreg hp hfuel
    · simp only [LFState.filter_message, if_neg hlen]
      exact lfDrainFilter_loaded _ fuel s v hl hreg hp hfuel
  · intro s cur l rest e h p mm fuel hent hreg hfd hpl hws hparse
    have hlen : s.entries.length = 0 := by simp [hent]
    have hrel := reload_head_ok s cur l rest e hreg hfd hpl hparse
    refine ⟨?_, ?_, ?_⟩
    · simp only [LFState.filter_host, hlen, if_pos rfl, hrel]
      exact lfDrainFilter_diverges _ fuel _ l rest e rfl (by simp) hpl hws hparse
        (by simpa using iterLookup_iterSet_self hreg (some 0)) (by simp)
    · simp only [LFState.filter_program, hlen, if_pos rfl, hrel]
      exact lfDrainFilter_diverges _ fuel _ l rest e rfl (by simp) hpl hws hparse
        (by simpa using iterLookup_iterSet_self hreg (some 0)) (by simp)
    · simp only [LFState.filter_message, hlen, if_pos rfl, hrel]
      exact lfDrainFilter_diverges _ fuel _ l rest e rfl (by simp) hpl hws hparse
        (by simpa using iterLookup_iterSet_self hreg (some 0)) (by simp)

/-- C3 witness: the loaded branch at a concrete mid-cursor state and the
divergent empty-cache branch at `stateC3`. -/
theorem C3_witness :
    stateC3b.filter_host "h" 5 =
      ({ stateC3b with iterators := iterSet stateC3b.iterators "default" none },
       .ok [mkEntry "m2"]) ∧
    (stateC3.filter_host "h" 3).2 = .error "out of fuel" := by
  have h1 := (C3_bulk_filters.1 stateC3b (some 1) "h" "p" (fun _ => true) 5
    (by decide) (by decide) (by decide) (by decide) (by decide)).1
  have h2 := (C3_bulk_filters.2 stateC3 none (mkLine "m1") [mkLine "m2"]
    (mkEntry "m1") "h" "p" (fun _ => true) 3 (by decide) (by decide) (by decide)
    (by decide) (by decide) (by decide)).1
  constructor
  · rw [h1]
    decide
  · exact h2

/-- C3 counterexample: `stateC3b` is a loaded file whose cache holds two
entries with host `h` and whose default cursor sits at position 1;
`filter_host` returns only the second entry — the matching cached entry
before the cursor is missing from the result — and the default cursor,
previously at 1, is reset to unset. -/
theorem C3_counterexample :
    (mkEntry "m1").host = some "h" ∧
    (mkEntry "m1") ∈ stateC3b.entries ∧
    iterLookup stateC3b.iterators "default" = some (some 1) ∧
    (stateC3b.filter_host "h" 5).2 = .ok [mkEntry "m2"] ∧
    iterLookup (stateC3b.filter_host "h" 5).1.iterators "default" = some none := by
  decide

end Systematic









